import Mathlib

/-!
Verification of the tag-construction core of `PostShowV2.py` (XBN post-show
tool): the `MP3Tagger` wrapper around a mutagen ID3 tag, the `Chapter` model
with its `as_chap` rendering, and the chapter-set emission described in the
design document.

The embedding models mutagen's documented ID3 container semantics: an ID3
tag is a dictionary from a frame's `HashKey` to the frame (insertion
ordered; assigning to an existing key replaces in place).  `HashKey` is the
frame id for plain text frames, `"COMM:desc:lang"` / `"USLT:desc:lang"`
for comment / lyrics frames, and `"CHAP:elem" / "CTOC:elem"` for chapter
and table-of-contents frames.  `ID3.add` stores a frame under its
`HashKey`; `ID3.delall fid` deletes the exact key `fid` when present and
otherwise every key starting with `fid ++ ":"`.
-/

/-- The ten single-valued ID3 text-frame kinds the tagger writes. -/
inductive TextId
  | TIT2 | TPE1 | TALB | TPOS | TCON | TCOM | TPE2 | TDRC | TRCK | TLAN
deriving DecidableEq, Repr

/-- The four-character frame identifier of a text frame kind. -/
def TextId.str : TextId → String
  | .TIT2 => "TIT2"
  | .TPE1 => "TPE1"
  | .TALB => "TALB"
  | .TPOS => "TPOS"
  | .TCON => "TCON"
  | .TCOM => "TCOM"
  | .TPE2 => "TPE2"
  | .TDRC => "TDRC"
  | .TRCK => "TRCK"
  | .TLAN => "TLAN"

/-- Sub-frames nested inside a CHAP frame: a TIT2 title sub-frame or a
WXXX URL sub-frame (with its description tag). -/
inductive SubFrame
  | tit2 (text : String)
  | wxxx (desc : String) (url : String)
deriving DecidableEq, Repr

/-- A mutagen CHAP frame: element id, start and end time in milliseconds,
and the ordered list of nested sub-frames. -/
structure CHAPFrame where
  element_id : Option String
  start_time : Int
  end_time : Int
  sub_frames : List SubFrame
deriving DecidableEq, Repr

/-- The ID3 frames manipulated by `PostShowV2.py`.  `tlen` holds the
rounded duration in milliseconds (the source stores its decimal rendering
as the frame text; the numeric value is what the spec constrains). -/
inductive Frame
  | text (id : TextId) (value : String)
  | tlen (length_ms : Int)
  | comm (lang : String) (desc : String) (value : String)
  | uslt (lang : String) (desc : String) (value : String)
  | chap (c : CHAPFrame)
  | ctoc (element_id : String) (child_element_ids : List String)
deriving DecidableEq, Repr

/-- mutagen's `Frame.HashKey`: the dictionary key a frame is stored under
inside an ID3 tag.  A `None` element id renders as the string `"None"`
(Python `"%s" % None`). -/
def Frame.hashKey : Frame → String
  | .text id _ => id.str
  | .tlen _ => "TLEN"
  | .comm lang desc _ => "COMM:" ++ desc ++ ":" ++ lang
  | .uslt lang desc _ => "USLT:" ++ desc ++ ":" ++ lang
  | .chap c => "CHAP:" ++ (match c.element_id with | some s => s | none => "None")
  | .ctoc eid _ => "CTOC:" ++ eid

/-- The frame id (frame type) of a frame, without the per-frame key part. -/
def Frame.frameId : Frame → String
  | .text id _ => id.str
  | .tlen _ => "TLEN"
  | .comm _ _ _ => "COMM"
  | .uslt _ _ _ => "USLT"
  | .chap _ => "CHAP"
  | .ctoc _ _ => "CTOC"

/-- Whether a frame is a chapter frame. -/
def Frame.isChap : Frame → Bool
  | .chap _ => true
  | _ => false

/-- Whether a frame is a table-of-contents frame. -/
def Frame.isCtoc : Frame → Bool
  | .ctoc _ _ => true
  | _ => false

/-- Python `s.startswith(p)` on strings, as a character-prefix test. -/
def strStartsWith (s p : String) : Bool := p.data.isPrefixOf s.data

/-- An ID3 tag: the insertion-ordered key-value store of frames, with the
key of each entry determined by the frame itself (`Frame.hashKey`), so the
store is just the list of frames. -/
abbrev ID3Tag := List Frame

/-- mutagen `ID3.add`: store `f` under `f.hashKey`.  Python dict
assignment: if the key is present the held frame is replaced in place,
otherwise the new entry is appended. -/
def ID3Tag.add (t : ID3Tag) (f : Frame) : ID3Tag :=
  if t.any (fun g => g.hashKey == f.hashKey) then
    t.map (fun g => if g.hashKey == f.hashKey then f else g)
  else
    t ++ [f]

/-- mutagen `ID3.delall fid`: if the exact key `fid` is present delete it,
otherwise delete every key starting with `fid ++ ":"`. -/
def ID3Tag.delall (t : ID3Tag) (fid : String) : ID3Tag :=
  if t.any (fun g => g.hashKey == fid) then
    t.filter (fun g => !(g.hashKey == fid))
  else
    t.filter (fun g => !(strStartsWith g.hashKey (fid ++ ":")))

/-- The `MP3Tagger` state: the target path and the in-memory ID3 tag. -/
structure MP3Tagger where
  path : String
  tag : ID3Tag
deriving DecidableEq, Repr

/-- `set_title`: delete all TIT2 frames, then add one TIT2 frame. -/
def MP3Tagger.set_title (t : MP3Tagger) (title : String) : MP3Tagger :=
  { t with tag := (t.tag.delall "TIT2").add (Frame.text .TIT2 title) }

/-- `set_artist`: delete all TPE1 frames, then add one TPE1 frame. -/
def MP3Tagger.set_artist (t : MP3Tagger) (artist : String) : MP3Tagger :=
  { t with tag := (t.tag.delall "TPE1").add (Frame.text .TPE1 artist) }

/-- `set_album`: delete all TALB frames, then add one TALB frame. -/
def MP3Tagger.set_album (t : MP3Tagger) (album : String) : MP3Tagger :=
  { t with tag := (t.tag.delall "TALB").add (Frame.text .TALB album) }

/-- `set_season`: delete all TPOS frames, then add one TPOS frame. -/
def MP3Tagger.set_season (t : MP3Tagger) (season : String) : MP3Tagger :=
  { t with tag := (t.tag.delall "TPOS").add (Frame.text .TPOS season) }

/-- `set_genre`: delete all TCON frames, then add one TCON frame. -/
def MP3Tagger.set_genre (t : MP3Tagger) (genre : String) : MP3Tagger :=
  { t with tag := (t.tag.delall "TCON").add (Frame.text .TCON genre) }

/-- `set_composer`: delete all TCOM frames, then add one TCOM frame. -/
def MP3Tagger.set_composer (t : MP3Tagger) (composer : String) : MP3Tagger :=
  { t with tag := (t.tag.delall "TCOM").add (Frame.text .TCOM composer) }

/-- `set_accompaniment`: delete all TPE2 frames, then add one TPE2 frame. -/
def MP3Tagger.set_accompaniment (t : MP3Tagger) (accompaniment : String) : MP3Tagger :=
  { t with tag := (t.tag.delall "TPE2").add (Frame.text .TPE2 accompaniment) }

/-- `set_date`: delete all TDRC frames, then add one TDRC frame. -/
def MP3Tagger.set_date (t : MP3Tagger) (year : String) : MP3Tagger :=
  { t with tag := (t.tag.delall "TDRC").add (Frame.text .TDRC year) }

/-- `set_trackno`: delete all TRCK frames, then add one TRCK frame. -/
def MP3Tagger.set_trackno (t : MP3Tagger) (trackno : String) : MP3Tagger :=
  { t with tag := (t.tag.delall "TRCK").add (Frame.text .TRCK trackno) }

/-- `set_language`: delete all TLAN frames, then add one TLAN frame. -/
def MP3Tagger.set_language (t : MP3Tagger) (language : String) : MP3Tagger :=
  { t with tag := (t.tag.delall "TLAN").add (Frame.text .TLAN language) }

/-- `add_comment`: add a COMM frame (dict-keyed by `COMM:desc:lang`). -/
def MP3Tagger.add_comment (t : MP3Tagger) (lang desc comment : String) : MP3Tagger :=
  { t with tag := t.tag.add (Frame.comm lang desc comment) }

/-- `add_lyrics`: add a USLT frame (dict-keyed by `USLT:desc:lang`). -/
def MP3Tagger.add_lyrics (t : MP3Tagger) (lang desc lyrics : String) : MP3Tagger :=
  { t with tag := t.tag.add (Frame.uslt lang desc lyrics) }

/-- Names for the ten single-value field operations, used to quantify a
claim over all of them at once. -/
inductive TextField
  | title | artist | album | season | genre | composer | accompaniment
  | date | trackno | language
deriving DecidableEq, Repr

/-- The text-frame kind governed by each single-value field operation. -/
def TextField.frameType : TextField → TextId
  | .title => .TIT2
  | .artist => .TPE1
  | .album => .TALB
  | .season => .TPOS
  | .genre => .TCON
  | .composer => .TCOM
  | .accompaniment => .TPE2
  | .date => .TDRC
  | .trackno => .TRCK
  | .language => .TLAN

/-- Dispatch from a field name to the corresponding setter of the source. -/
def MP3Tagger.set_field (t : MP3Tagger) : TextField → String → MP3Tagger
  | .title, v => t.set_title v
  | .artist, v => t.set_artist v
  | .album, v => t.set_album v
  | .season, v => t.set_season v
  | .genre, v => t.set_genre v
  | .composer, v => t.set_composer v
  | .accompaniment, v => t.set_accompaniment v
  | .date, v => t.set_date v
  | .trackno, v => t.set_trackno v
  | .language, v => t.set_language v

/-- Errors surfaced by mutagen while opening a file. -/
inductive MutagenError
  | unreadable
  | noHeader
  | headerNotFound
deriving DecidableEq, Repr

/-- The relevant state of the target path when the tagger is constructed:
missing, an existing file that is not an MPEG audio stream, or an MPEG
audio file (with or without an embedded ID3 tag, and with its decoded
length in seconds). -/
inductive PathState
  | missing
  | notAudio (existingTag : Option ID3Tag)
  | audio (existingTag : Option ID3Tag) (lengthSec : ℚ)
deriving DecidableEq, Repr

/-- `mutagen.id3.ID3(path)`: load the embedded tag; raises a
`MutagenError` for a missing file or when no ID3 header is present. -/
def mutagen_ID3 : PathState → Except MutagenError ID3Tag
  | .missing => .error .unreadable
  | .notAudio none => .error .noHeader
  | .notAudio (some tg) => .ok tg
  | .audio none _ => .error .noHeader
  | .audio (some tg) _ => .ok tg

/-- `ID3FileType(path)` followed by `add_tags(ID3=ID3)` and `.ID3()`:
succeeds with a fresh empty tag for any existing file, raises for a
missing file. -/
def mutagen_ID3FileType_newtag : PathState → Except MutagenError ID3Tag
  | .missing => .error .unreadable
  | _ => .ok []

/-- `mutagen.mp3.MP3(path).info.length`: decoded length in seconds;
raises when the file is missing or is not an MPEG stream. -/
def mutagen_MP3_length : PathState → Except MutagenError ℚ
  | .audio _ len => .ok len
  | .missing => .error .unreadable
  | .notAudio _ => .error .headerNotFound

/-- Python `round(q, 0)`: round half to even, modelled on exact rationals. -/
def pythonRound (q : ℚ) : ℤ :=
  if q - ⌊q⌋ < 1 / 2 then ⌊q⌋
  else if 1 / 2 < q - ⌊q⌋ then ⌊q⌋ + 1
  else if ⌊q⌋ % 2 = 0 then ⌊q⌋ else ⌊q⌋ + 1

/-- `MP3Tagger.__init__`: try to load an existing ID3 tag; on any
`MutagenError` create a fresh empty tag attached to the file; then decode
the MP3 length and stamp a TLEN frame holding the length in milliseconds
rounded to the nearest integer.  Any uncaught error propagates. -/
def MP3Tagger.init (path : String) (st : PathState) : Except MutagenError MP3Tagger :=
  let tagE : Except MutagenError ID3Tag :=
    match mutagen_ID3 st with
    | .ok tg => .ok tg
    | .error _ => mutagen_ID3FileType_newtag st
  match tagE, mutagen_MP3_length st with
  | .error e, _ => .error e
  | .ok _, .error e => .error e
  | .ok tg, .ok len =>
      .ok { path := path, tag := tg.add (Frame.tlen (pythonRound (len * 1000))) }

/-- A podcast chapter, mirroring `Chapter.__init__` (fields stored
verbatim, `elem_id` starts out unassigned, `indexed` defaults to true). -/
structure Chapter where
  elem_id : Option String := none
  text : Option String := none
  start : Int
  end_ : Int
  url : Option String := none
  image : Option String := none
  indexed : Bool := true
deriving DecidableEq, Repr

/-- The error raised by `Chapter.as_chap` when an image is present
(`NotImplementedError`; the message text is abstracted). -/
inductive ChapError
  | notImplementedError
deriving DecidableEq, Repr

/-- `Chapter.as_chap`: build the sub-frame list (a TIT2 title sub-frame if
`text` is set, then a WXXX sub-frame with description `"chapter url"` if
`url` is set), fail with `NotImplementedError` if `image` is set, and
otherwise return the CHAP frame. -/
def Chapter.as_chap (c : Chapter) : Except ChapError CHAPFrame :=
  let sub1 : List SubFrame := match c.text with | some s => [.tit2 s] | none => []
  let sub2 : List SubFrame := match c.url with | some u => [.wxxx "chapter url" u] | none => []
  match c.image with
  | some _ => .error .notImplementedError
  | none =>
      .ok { element_id := c.elem_id, start_time := c.start, end_time := c.end_,
            sub_frames := sub1 ++ sub2 }

/-- Modelled from the spec: step 1 of chapter-set emission (§4.2), which
is absent from the source file (only `Chapter.as_chap` exists; no source
code assigns `elem_id` or builds the table of contents).  Each chapter is
assigned a unique element id `"chp0"`, `"chp1"`, … in traversal order. -/
def assign_element_ids (chapters : List Chapter) : List Chapter :=
  chapters.enum.map (fun p => { p.2 with elem_id := some ("chp" ++ Nat.repr p.1) })

/-- Modelled from the spec: step 2 of chapter-set emission (§4.2), absent
from the source.  Render every chapter through its `as_chap` contract, in
order; the first failure aborts the emission. -/
def renderEach : List Chapter → Except ChapError (List Frame)
  | [] => .ok []
  | c :: rest =>
      match c.as_chap with
      | .error e => .error e
      | .ok f =>
          match renderEach rest with
          | .error e => .error e
          | .ok fs => .ok (Frame.chap f :: fs)

/-- Modelled from the spec: chapter-set emission (§4.2), absent from the
source.  For a non-empty chapter list, assign element ids, render one CHAP
frame per chapter, and emit exactly one CTOC frame whose child list holds
the element ids of the indexed chapters in chapter order; for an empty
list emit nothing.  (The spec does not name the CTOC's own element id; it
is rendered here as `"toc"`.) -/
def render_chapters (chapters : List Chapter) : Except ChapError (List Frame) :=
  if chapters.isEmpty then .ok []
  else
    match renderEach (assign_element_ids chapters) with
    | .error e => .error e
    | .ok chapFrames =>
        .ok (chapFrames ++
          [Frame.ctoc "toc"
            (((assign_element_ids chapters).filter (fun c => c.indexed)).filterMap
              (fun c => c.elem_id))])

/-- The numeric value of a decimal digit character. -/
def digitVal (c : Char) : ℕ := c.toNat - 48

/-- Value of a most-significant-first decimal digit string. -/
def decValue (l : List Char) : ℕ := l.foldl (fun a c => 10 * a + digitVal c) 0

/-- The CHAP record `as_chap` produces when no image is present. -/
def chapOk (c : Chapter) : CHAPFrame :=
  { element_id := c.elem_id, start_time := c.start, end_time := c.end_,
    sub_frames :=
      (match c.text with | some s => [SubFrame.tit2 s] | none => [])
      ++ (match c.url with | some u => [SubFrame.wxxx "chapter url" u] | none => []) }

lemma mem_delall_imp {t : ID3Tag} {fid : String} {g : Frame}
    (h : g ∈ t.delall fid) : g ∈ t ∧ g.hashKey ≠ fid := by
  unfold ID3Tag.delall at h
  split at h
  · rcases List.mem_filter.mp h with ⟨hm, hk⟩
    simp only [Bool.not_eq_eq_eq_not, Bool.not_true, beq_eq_false_iff_ne, ne_eq] at hk
    exact ⟨hm, hk⟩
  · rename_i hc
    rcases List.mem_filter.mp h with ⟨hm, -⟩
    refine ⟨hm, fun hk => ?_⟩
    exact hc (List.any_eq_true.mpr ⟨g, hm, by simp [hk]⟩)

lemma mem_delall_of_safe {t : ID3Tag} {fid : String} {g : Frame}
    (hm : g ∈ t) (hk : g.hashKey ≠ fid)
    (hp : strStartsWith g.hashKey (fid ++ ":") = false) : g ∈ t.delall fid := by
  unfold ID3Tag.delall
  split
  · exact List.mem_filter.mpr ⟨hm, by simp [hk]⟩
  · exact List.mem_filter.mpr ⟨hm, by simp [hp]⟩

lemma delall_any_key (t : ID3Tag) (fid : String) :
    (t.delall fid).any (fun g => g.hashKey == fid) = false := by
  rw [Bool.eq_false_iff]
  intro h
  rcases List.any_eq_true.mp h with ⟨g, hm, hk⟩
  exact (mem_delall_imp hm).2 (by simpa using hk)

lemma add_key_absent {t : ID3Tag} {f : Frame}
    (h : t.any (fun g => g.hashKey == f.hashKey) = false) : t.add f = t ++ [f] := by
  unfold ID3Tag.add
  rw [h]
  simp

lemma add_mem_self (t : ID3Tag) (f : Frame) : f ∈ t.add f := by
  unfold ID3Tag.add
  split
  · rename_i hc
    rcases List.any_eq_true.mp hc with ⟨g, hm, hk⟩
    exact List.mem_map.mpr ⟨g, hm, by simp [hk]⟩
  · simp

lemma mem_add_of_mem {t : ID3Tag} {f g : Frame}
    (hm : g ∈ t) (hk : g.hashKey ≠ f.hashKey) : g ∈ t.add f := by
  unfold ID3Tag.add
  split
  · exact List.mem_map.mpr ⟨g, hm, by simp [hk]⟩
  · simp [hm]

lemma mem_add_elim {t : ID3Tag} {f g : Frame}
    (h : g ∈ t.add f) : g = f ∨ g ∈ t := by
  unfold ID3Tag.add at h
  split at h
  · rcases List.mem_map.mp h with ⟨a, ha, hfa⟩
    by_cases hk : a.hashKey = f.hashKey
    · simp only [hk, beq_self_eq_true, if_true] at hfa
      exact Or.inl hfa.symm
    · simp only [hk, beq_iff_eq, if_false, if_neg hk] at hfa
      exact Or.inr (hfa ▸ ha)
  · rcases List.mem_append.mp h with hm | hm
    · exact Or.inr hm
    · exact Or.inl (by simpa using hm)

lemma TextId.str_inj {a b : TextId} (h : a.str = b.str) : a = b := by
  cases a <;> cases b <;> revert h <;> decide

lemma hashKey_eq_of_frameId_eq (g : Frame) (fid : TextId) (h : g.frameId = fid.str) :
    g.hashKey = fid.str := by
  cases g with
  | text id v => exact h
  | tlen n => exact h
  | comm l d v =>
      exfalso
      rw [show (Frame.comm l d v).frameId = "COMM" from rfl] at h
      revert h; cases fid <;> decide
  | uslt l d v =>
      exfalso
      rw [show (Frame.uslt l d v).frameId = "USLT" from rfl] at h
      revert h; cases fid <;> decide
  | chap c =>
      exfalso
      rw [show (Frame.chap c).frameId = "CHAP" from rfl] at h
      revert h; cases fid <;> decide
  | ctoc e ch =>
      exfalso
      rw [show (Frame.ctoc e ch).frameId = "CTOC" from rfl] at h
      revert h; cases fid <;> decide

lemma filter_frameId_delall_add (t : ID3Tag) (fid : TextId) (v : String) :
    (((t.delall fid.str).add (Frame.text fid v)).filter
        (fun g => g.frameId == fid.str)) = [Frame.text fid v] := by
  have habs : (t.delall fid.str).any
      (fun g => g.hashKey == (Frame.text fid v).hashKey) = false :=
    delall_any_key t fid.str
  rw [add_key_absent habs, List.filter_append]
  have h1 : (t.delall fid.str).filter (fun g => g.frameId == fid.str) = [] := by
    apply List.filter_eq_nil_iff.mpr
    intro g hg
    simp only [beq_iff_eq]
    intro hf
    exact (mem_delall_imp hg).2 (hashKey_eq_of_frameId_eq g fid hf)
  rw [h1]
  simp [Frame.frameId]

lemma add_key_present {t : ID3Tag} {f : Frame}
    (h : t.any (fun g => g.hashKey == f.hashKey) = true) :
    t.add f = t.map (fun g => if g.hashKey == f.hashKey then f else g) := by
  unfold ID3Tag.add
  rw [if_pos h]

lemma delall_append_single (s : ID3Tag) (f1 : Frame) (k : String)
    (hall : ∀ g ∈ s, g.hashKey ≠ k) (h1 : f1.hashKey = k) :
    (s ++ [f1]).delall k = s := by
  unfold ID3Tag.delall
  rw [if_pos]
  · rw [List.filter_append]
    have e1 : s.filter (fun g => !(g.hashKey == k)) = s := by
      apply List.filter_eq_self.mpr
      intro g hg
      simp [hall g hg]
    have e2 : ([f1] : List Frame).filter (fun g => !(g.hashKey == k)) = [] := by
      simp [h1]
    rw [e1, e2, List.append_nil]
  · exact List.any_eq_true.mpr ⟨f1, by simp, by simp [h1]⟩

lemma delall_add_delall_add (t : ID3Tag) (k : String) (f1 f2 : Frame)
    (h1 : f1.hashKey = k) :
    (((t.delall k).add f1).delall k).add f2 = (t.delall k).add f2 := by
  have habs1 : (t.delall k).any (fun g => g.hashKey == f1.hashKey) = false := by
    rw [h1]; exact delall_any_key t k
  rw [add_key_absent habs1,
      delall_append_single (t.delall k) f1 k (fun g hg => (mem_delall_imp hg).2) h1]

lemma add_add_same_key (t : ID3Tag) (f1 f2 : Frame) (hk : f1.hashKey = f2.hashKey) :
    (t.add f1).add f2 = t.add f2 := by
  by_cases hc : t.any (fun g => g.hashKey == f1.hashKey) = true
  · have hc2 : t.any (fun g => g.hashKey == f2.hashKey) = true := hk ▸ hc
    have hcmid : (t.map (fun g => if g.hashKey == f1.hashKey then f1 else g)).any
        (fun g => g.hashKey == f2.hashKey) = true := by
      rcases List.any_eq_true.mp hc with ⟨g, hg, hgk⟩
      apply List.any_eq_true.mpr
      refine ⟨f1, List.mem_map.mpr ⟨g, hg, by simp [hgk]⟩, by simp [hk]⟩
    rw [add_key_present hc, add_key_present hcmid, add_key_present hc2, List.map_map]
    apply List.map_congr_left
    intro g _
    by_cases hgk : g.hashKey = f1.hashKey
    · simp [Function.comp, hgk, hk]
    · have hgk2 : ¬ g.hashKey = f2.hashKey := fun he => hgk (hk ▸ he)
      simp [Function.comp, hgk, hgk2]
  · have hcf : t.any (fun g => g.hashKey == f1.hashKey) = false := by
      simpa using hc
    have hc2f : t.any (fun g => g.hashKey == f2.hashKey) = false := hk ▸ hcf
    have hcmid : (t ++ [f1]).any (fun g => g.hashKey == f2.hashKey) = true := by
      apply List.any_eq_true.mpr
      exact ⟨f1, by simp, by simp [hk]⟩
    rw [add_key_absent hcf, add_key_present hcmid, List.map_append]
    have e1 : t.map (fun g => if g.hashKey == f2.hashKey then f2 else g) = t := by
      have hpt : ∀ g ∈ t, (if g.hashKey == f2.hashKey then f2 else g) = g := by
        intro g hg
        have hne : g.hashKey ≠ f2.hashKey := by
          intro he
          have : t.any (fun g => g.hashKey == f2.hashKey) = true :=
            List.any_eq_true.mpr ⟨g, hg, by simp [he]⟩
          rw [hc2f] at this
          exact Bool.false_ne_true this
        simp [hne]
      calc t.map (fun g => if g.hashKey == f2.hashKey then f2 else g)
          = t.map id := List.map_congr_left hpt
        _ = t := List.map_id t
    have e2 : ([f1] : List Frame).map
        (fun g => if g.hashKey == f2.hashKey then f2 else g) = [f2] := by
      simp [hk]
    rw [e1, e2, add_key_absent hc2f]

lemma set_field_eq (t : MP3Tagger) (f : TextField) (v : String) :
    t.set_field f v =
      { t with tag := (t.tag.delall (f.frameType).str).add (Frame.text f.frameType v) } := by
  cases f <;> rfl

lemma isPrefixOf_eq_true_iff (p s : List Char) :
    p.isPrefixOf s = true ↔ ∃ r, p ++ r = s := by
  induction p generalizing s with
  | nil => simp [List.isPrefixOf]
  | cons a as ih =>
      cases s with
      | nil => simp [List.isPrefixOf]
      | cons b bs =>
          simp only [List.isPrefixOf, Bool.and_eq_true, beq_iff_eq, ih, List.cons_append,
            List.cons.injEq]
          constructor
          · rintro ⟨hab, r, hr⟩; exact ⟨r, hab, hr⟩
          · rintro ⟨r, hab, hr⟩; exact ⟨hab, r, hr⟩

lemma isPrefixOf_eq_false_of_ne (p q r : List Char)
    (hlen : p.length = q.length) (hne : p ≠ q) : p.isPrefixOf (q ++ r) = false := by
  rw [Bool.eq_false_iff]
  intro h
  rcases (isPrefixOf_eq_true_iff p (q ++ r)).mp h with ⟨u, hu⟩
  exact hne (List.append_inj_left hu hlen)

lemma isPrefixOf_eq_false_of_short (p s : List Char)
    (h : s.length < p.length) : p.isPrefixOf s = false := by
  rw [Bool.eq_false_iff]
  intro hp
  rcases (isPrefixOf_eq_true_iff p s).mp hp with ⟨u, hu⟩
  have := congrArg List.length hu
  simp only [List.length_append] at this
  omega

lemma strDataAppend (s t : String) : (s ++ t).data = s.data ++ t.data := by
  cases s; cases t; rfl

lemma textid_colon_facts (fid : TextId) :
    (fid.str ++ ":").data.length = 5 ∧ fid.str.data.length = 4 ∧
    (fid.str ++ ":").data ≠ "COMM:".data ∧ (fid.str ++ ":").data ≠ "USLT:".data ∧
    (fid.str ++ ":").data ≠ "CHAP:".data ∧ (fid.str ++ ":").data ≠ "CTOC:".data ∧
    fid.str ≠ "TLEN" := by
  cases fid <;> decide

lemma hashKey_ne_and_no_colon_key (g : Frame) (fid : TextId) (h : g.frameId ≠ fid.str) :
    g.hashKey ≠ fid.str ∧ strStartsWith g.hashKey (fid.str ++ ":") = false := by
  obtain ⟨hl5, hl4, hcomm, huslt, hchap, hctoc, htlen⟩ := textid_colon_facts fid
  cases g with
  | text id v =>
      refine ⟨h, ?_⟩
      unfold strStartsWith
      apply isPrefixOf_eq_false_of_short
      rw [hl5]
      have := (textid_colon_facts id).2.1
      show (TextId.str id).data.length < 5
      omega
  | tlen n =>
      refine ⟨h, ?_⟩
      unfold strStartsWith
      apply isPrefixOf_eq_false_of_short
      rw [hl5]
      show ("TLEN" : String).data.length < 5
      decide
  | comm l d v =>
      have hdata : (Frame.comm l d v).hashKey.data
          = "COMM:".data ++ (d.data ++ (":".data ++ l.data)) := by
        show ((("COMM:" ++ d) ++ ":") ++ l).data = _
        rw [strDataAppend, strDataAppend, strDataAppend, List.append_assoc, List.append_assoc]
      constructor
      · intro he
        have := congrArg String.data he
        rw [hdata] at this
        have hlen := congrArg List.length this
        rw [List.length_append] at hlen
        have h5 : ("COMM:".data).length = 5 := by decide
        omega
      · unfold strStartsWith
        rw [hdata]
        exact isPrefixOf_eq_false_of_ne _ _ _ (by rw [hl5]; decide) hcomm
  | uslt l d v =>
      have hdata : (Frame.uslt l d v).hashKey.data
          = "USLT:".data ++ (d.data ++ (":".data ++ l.data)) := by
        show ((("USLT:" ++ d) ++ ":") ++ l).data = _
        rw [strDataAppend, strDataAppend, strDataAppend, List.append_assoc, List.append_assoc]
      constructor
      · intro he
        have := congrArg String.data he
        rw [hdata] at this
        have hlen := congrArg List.length this
        rw [List.length_append] at hlen
        have h5 : ("USLT:".data).length = 5 := by decide
        omega
      · unfold strStartsWith
        rw [hdata]
        exact isPrefixOf_eq_false_of_ne _ _ _ (by rw [hl5]; decide) huslt
  | chap c =>
      have hdata : (Frame.chap c).hashKey.data
          = "CHAP:".data
            ++ (match c.element_id with | some s => s | none => "None").data := by
        show ("CHAP:" ++ (match c.element_id with | some s => s | none => "None")).data = _
        rw [strDataAppend]
      constructor
      · intro he
        have := congrArg String.data he
        rw [hdata] at this
        have hlen := congrArg List.length this
        rw [List.length_append] at hlen
        have h5 : ("CHAP:".data).length = 5 := by decide
        omega
      · unfold strStartsWith
        rw [hdata]
        exact isPrefixOf_eq_false_of_ne _ _ _ (by rw [hl5]; decide) hchap
  | ctoc e ch =>
      have hdata : (Frame.ctoc e ch).hashKey.data = "CTOC:".data ++ e.data := by
        show ("CTOC:" ++ e).data = _
        rw [strDataAppend]
      constructor
      · intro he
        have := congrArg String.data he
        rw [hdata] at this
        have hlen := congrArg List.length this
        rw [List.length_append] at hlen
        have h5 : ("CTOC:".data).length = 5 := by decide
        omega
      · unfold strStartsWith
        rw [hdata]
        exact isPrefixOf_eq_false_of_ne _ _ _ (by rw [hl5]; decide) hctoc

lemma decValue_append_singleton (l : List Char) (c : Char) :
    decValue (l ++ [c]) = 10 * decValue l + digitVal c := by
  unfold decValue
  rw [List.foldl_append]
  rfl

lemma digitVal_digitChar (d : ℕ) (h : d < 10) : digitVal (Nat.digitChar d) = d := by
  interval_cases d <;> decide

lemma toDigitsCore_append10 (fuel : ℕ) : ∀ (n : ℕ) (ds : List Char),
    Nat.toDigitsCore 10 fuel n ds = Nat.toDigitsCore 10 fuel n [] ++ ds := by
  induction fuel with
  | zero => intro n ds; simp [Nat.toDigitsCore]
  | succ f ih =>
      intro n ds
      unfold Nat.toDigitsCore
      by_cases h : n / 10 = 0
      · simp [h]
      · simp only [h, if_false]
        rw [ih (n / 10) (Nat.digitChar (n % 10) :: ds), ih (n / 10) [Nat.digitChar (n % 10)]]
        simp

lemma decValue_toDigitsCore (fuel : ℕ) : ∀ (n : ℕ), n < fuel →
    decValue (Nat.toDigitsCore 10 fuel n []) = n := by
  induction fuel with
  | zero => intro n h; omega
  | succ f ih =>
      intro n h
      unfold Nat.toDigitsCore
      by_cases h0 : n / 10 = 0
      · simp only [h0, if_true]
        have hn10 : n < 10 := by omega
        have e : decValue [Nat.digitChar (n % 10)] = digitVal (Nat.digitChar (n % 10)) := by
          unfold decValue
          simp
        rw [e, digitVal_digitChar (n % 10) (by omega)]
        omega
      · simp only [h0, if_false]
        rw [toDigitsCore_append10, decValue_append_singleton, ih (n / 10) (by omega),
          digitVal_digitChar (n % 10) (by omega)]
        omega

lemma nat_repr_inj {m n : ℕ} (h : Nat.repr m = Nat.repr n) : m = n := by
  unfold Nat.repr at h
  have h2 : Nat.toDigits 10 m = Nat.toDigits 10 n := List.asString_inj.mp h
  unfold Nat.toDigits at h2
  have hm := decValue_toDigitsCore (m + 1) m (Nat.lt_succ_self m)
  have hn := decValue_toDigitsCore (n + 1) n (Nat.lt_succ_self n)
  rw [← hm, ← hn, h2]

lemma string_append_left_cancel {a b : String} (s : String) (h : s ++ a = s ++ b) :
    a = b := by
  have hd := congrArg String.data h
  rw [strDataAppend, strDataAppend] at hd
  have hd2 := List.append_cancel_left hd
  exact congrArg String.mk hd2

lemma filter_key_replace (t : ID3Tag) (f : Frame)
    (hn : (t.map Frame.hashKey).Nodup)
    (hc : t.any (fun g => g.hashKey == f.hashKey) = true) :
    (t.map (fun g => if g.hashKey == f.hashKey then f else g)).filter
      (fun g => g.hashKey == f.hashKey) = [f] := by
  induction t with
  | nil => simp at hc
  | cons g gs ih =>
      rw [List.map_cons, List.nodup_cons] at hn
      obtain ⟨hng, hns⟩ := hn
      rw [List.map_cons, List.filter_cons]
      by_cases hgk : g.hashKey = f.hashKey
      · have hh : (if g.hashKey == f.hashKey then f else g) = f := by simp [hgk]
        rw [hh, if_pos (by simp)]
        have htail : (gs.map (fun g => if g.hashKey == f.hashKey then f else g)).filter
            (fun g => g.hashKey == f.hashKey) = [] := by
          apply List.filter_eq_nil_iff.mpr
          intro b hb
          rcases List.mem_map.mp hb with ⟨a, ha, hab⟩
          have hak : a.hashKey ≠ f.hashKey := by
            intro he
            apply hng
            rw [hgk, ← he]
            exact List.mem_map.mpr ⟨a, ha, rfl⟩
          have hab2 : b = a := by rw [← hab]; simp [hak]
          subst hab2
          simp [hak]
        rw [htail]
      · have hh : (if g.hashKey == f.hashKey then f else g) = g := by simp [hgk]
        rw [hh, if_neg (by simp [hgk])]
        have hc2 : gs.any (fun g => g.hashKey == f.hashKey) = true := by
          rcases List.any_eq_true.mp hc with ⟨a, ha, hak⟩
          rcases List.mem_cons.mp ha with hag | hag
          · exfalso
            subst hag
            exact hgk (by simpa using hak)
          · exact List.any_eq_true.mpr ⟨a, hag, hak⟩
        exact ih hns hc2

lemma filter_key_add (t : ID3Tag) (f : Frame) (hn : (t.map Frame.hashKey).Nodup) :
    (t.add f).filter (fun g => g.hashKey == f.hashKey) = [f] := by
  by_cases hc : t.any (fun g => g.hashKey == f.hashKey) = true
  · rw [add_key_present hc]
    exact filter_key_replace t f hn hc
  · have hcf : t.any (fun g => g.hashKey == f.hashKey) = false := by simpa using hc
    rw [add_key_absent hcf, List.filter_append]
    have h1 : t.filter (fun g => g.hashKey == f.hashKey) = [] := by
      apply List.filter_eq_nil_iff.mpr
      intro g hg
      simp only [beq_iff_eq]
      intro hk
      rw [Bool.eq_false_iff] at hcf
      exact hcf (List.any_eq_true.mpr ⟨g, hg, by simp [hk]⟩)
    rw [h1]
    simp

lemma as_chap_ok (c : Chapter) (h : c.image = none) :
    c.as_chap = Except.ok (chapOk c) := by
  unfold Chapter.as_chap chapOk
  rw [h]

lemma renderEach_ok (l : List Chapter) (h : ∀ c ∈ l, c.image = none) :
    renderEach l = Except.ok (l.map (fun c => Frame.chap (chapOk c))) := by
  induction l with
  | nil => rfl
  | cons c cs ih =>
      have h1 : c.image = none := h c (List.mem_cons_self c cs)
      have h2 : ∀ a ∈ cs, a.image = none := fun a ha => h a (List.mem_cons_of_mem c ha)
      simp only [renderEach]
      rw [as_chap_ok c h1, ih h2]
      rfl


lemma assign_children (l : List (ℕ × Chapter)) :
    ((l.map (fun p => { p.2 with elem_id := some ("chp" ++ Nat.repr p.1) })).filter
        (fun c => c.indexed)).filterMap (fun c => c.elem_id)
      = (l.filter (fun p => p.2.indexed)).map (fun p => "chp" ++ Nat.repr p.1) := by
  induction l with
  | nil => rfl
  | cons q l ih =>
      by_cases hq : q.2.indexed
      · simp only [List.map_cons, List.filter_cons, List.filterMap_cons]
        rw [if_pos (by simpa using hq), if_pos (by simpa using hq)]
        simp only [List.filterMap_cons]
        rw [ih]
        rfl
      · simp only [List.map_cons, List.filter_cons]
        rw [if_neg (by simpa using hq), if_neg (by simpa using hq)]
        exact ih

lemma assign_image_none (cs : List Chapter) (h : ∀ c ∈ cs, c.image = none) :
    ∀ c ∈ assign_element_ids cs, c.image = none := by
  intro c hc
  rcases List.mem_map.mp hc with ⟨p, hp, rfl⟩
  show p.2.image = none
  exact h p.2 (List.getElem?_mem (List.mem_enum_iff_getElem?.mp hp))

lemma assign_length (cs : List Chapter) :
    (assign_element_ids cs).length = cs.length := by
  simp [assign_element_ids]

lemma render_chapters_ok (cs : List Chapter) (hne : cs ≠ [])
    (h : ∀ c ∈ cs, c.image = none) :
    render_chapters cs = Except.ok
      ((assign_element_ids cs).map (fun c => Frame.chap (chapOk c)) ++
        [Frame.ctoc "toc"
          ((cs.enum.filter (fun p => p.2.indexed)).map (fun p => "chp" ++ Nat.repr p.1))]) := by
  unfold render_chapters
  rw [if_neg (by simpa using hne)]
  rw [renderEach_ok _ (assign_image_none cs h)]
  show Except.ok _ = _
  rw [show ((assign_element_ids cs).filter (fun c => c.indexed)).filterMap
        (fun c => c.elem_id)
      = (cs.enum.filter (fun p => p.2.indexed)).map (fun p => "chp" ++ Nat.repr p.1)
    from assign_children cs.enum]

/-- C1: for every single-value field operation (set_title … set_language)
and every tag state, setting the field with `v1` and then `v2` leaves
exactly one frame of that field's type in the tag, holding `v2`. -/
theorem C1_single_value_replace_not_append (t : MP3Tagger) (f : TextField) (v1 v2 : String) :
    ((t.set_field f v1).set_field f v2).tag.filter
      (fun g => g.frameId == (f.frameType).str) = [Frame.text f.frameType v2] := by
  rw [set_field_eq (t.set_field f v1) f v2]
  exact filter_frameId_delall_add (t.set_field f v1).tag f.frameType v2

/-- C9 counterexample: `add_comment` is a Serializer field operation, yet
calling it twice (earlier value with a different description, then `v`)
does not leave the tag in the state of a single call with `v`: the first
frame survives because its dictionary key differs. -/
theorem C9_counterexample :
    (((MP3Tagger.mk "f.mp3" []).add_comment "eng" "a" "x").add_comment "eng" "b" "y")
      ≠ (MP3Tagger.mk "f.mp3" []).add_comment "eng" "b" "y" := by decide

/-- C9 (amended): the ten single-value setters are idempotent in the
claimed sense for every tag state; the comment and lyrics append
operations satisfy it only when both calls share the same
`(language, description)` dictionary key. -/
theorem C9_amended_idempotence :
    (∀ (t : MP3Tagger) (f : TextField) (v1 v2 : String),
        (t.set_field f v1).set_field f v2 = t.set_field f v2)
    ∧ (∀ (t : MP3Tagger) (lang desc c1 c2 : String),
        (t.add_comment lang desc c1).add_comment lang desc c2 = t.add_comment lang desc c2)
    ∧ (∀ (t : MP3Tagger) (lang desc l1 l2 : String),
        (t.add_lyrics lang desc l1).add_lyrics lang desc l2 = t.add_lyrics lang desc l2) := by
  refine ⟨?_, ?_, ?_⟩
  · intro t f v1 v2
    simp only [set_field_eq]
    congr 1
    exact delall_add_delall_add t.tag ((f.frameType).str)
      (Frame.text f.frameType v1) (Frame.text f.frameType v2) rfl
  · intro t lang desc c1 c2
    show MP3Tagger.mk t.path ((t.tag.add (Frame.comm lang desc c1)).add (Frame.comm lang desc c2))
        = MP3Tagger.mk t.path (t.tag.add (Frame.comm lang desc c2))
    congr 1
    exact add_add_same_key t.tag _ _ rfl
  · intro t lang desc l1 l2
    show MP3Tagger.mk t.path ((t.tag.add (Frame.uslt lang desc l1)).add (Frame.uslt lang desc l2))
        = MP3Tagger.mk t.path (t.tag.add (Frame.uslt lang desc l2))
    congr 1
    exact add_add_same_key t.tag _ _ rfl

/-- C3 counterexample: adding a comment twice with the same
`(language, description)` pair but different texts leaves ONE comment
frame (holding the later text), not the two distinct frames the claim
asserts: the ID3 container is a dictionary keyed by `COMM:desc:lang`. -/
theorem C3_counterexample :
    ((((MP3Tagger.mk "f.mp3" []).add_comment "eng" "d" "t1").add_comment
        "eng" "d" "t2").tag.length = 1)
    ∧ ((((MP3Tagger.mk "f.mp3" []).add_comment "eng" "d" "t1").add_comment
        "eng" "d" "t2").tag = [Frame.comm "eng" "d" "t2"]) := by decide

/-- C3 (amended): calling the comment-add (resp. lyrics-add) operation
twice with the same `(language, description)` pair but different texts
leaves exactly one comment (resp. lyrics) frame under that key, holding
the later text — replace, not append (for any well-formed tag state, i.e.
one with no duplicate dictionary keys). -/
theorem C3_amended_same_key_replaces (t : MP3Tagger) (lang desc c1 c2 : String)
    (hn : (t.tag.map Frame.hashKey).Nodup) :
    (((t.add_comment lang desc c1).add_comment lang desc c2).tag.filter
        (fun g => g.hashKey == (Frame.comm lang desc c2).hashKey)
      = [Frame.comm lang desc c2])
    ∧ (((t.add_lyrics lang desc c1).add_lyrics lang desc c2).tag.filter
        (fun g => g.hashKey == (Frame.uslt lang desc c2).hashKey)
      = [Frame.uslt lang desc c2]) := by
  constructor
  · show ((t.tag.add (Frame.comm lang desc c1)).add (Frame.comm lang desc c2)).filter _ = _
    rw [add_add_same_key t.tag (Frame.comm lang desc c1) (Frame.comm lang desc c2) rfl]
    exact filter_key_add t.tag _ hn
  · show ((t.tag.add (Frame.uslt lang desc c1)).add (Frame.uslt lang desc c2)).filter _ = _
    rw [add_add_same_key t.tag (Frame.uslt lang desc c1) (Frame.uslt lang desc c2) rfl]
    exact filter_key_add t.tag _ hn

/-- C3 amended-claim witness at a concrete tag state. -/
theorem C3_amended_witness :
    ((((MP3Tagger.mk "f.mp3" [Frame.text .TIT2 "t"]).add_comment "eng" "d" "a").add_comment
        "eng" "d" "b").tag.filter
        (fun g => g.hashKey == (Frame.comm "eng" "d" "b").hashKey)
      = [Frame.comm "eng" "d" "b"])
    ∧ ((((MP3Tagger.mk "f.mp3" [Frame.text .TIT2 "t"]).add_lyrics "eng" "d" "a").add_lyrics
        "eng" "d" "b").tag.filter
        (fun g => g.hashKey == (Frame.uslt "eng" "d" "b").hashKey)
      = [Frame.uslt "eng" "d" "b"]) :=
  C3_amended_same_key_replaces (MP3Tagger.mk "f.mp3" [Frame.text .TIT2 "t"])
    "eng" "d" "a" "b" (by decide)

/-- C10: a single-value setter removes and inserts only frames of the one
frame type it governs: every frame of any other type present before the
call is still present after it, and every frame present afterwards was
either present before or is of the governed type. -/
theorem C10_setters_touch_only_own_frame_type
    (t : MP3Tagger) (f : TextField) (v : String) (g : Frame) :
    (g ∈ t.tag → g.frameId ≠ (f.frameType).str → g ∈ (t.set_field f v).tag)
    ∧ (g ∈ (t.set_field f v).tag → g ∈ t.tag ∨ g.frameId = (f.frameType).str) := by
  rw [set_field_eq]
  constructor
  · intro hm hne
    obtain ⟨hk, hp⟩ := hashKey_ne_and_no_colon_key g f.frameType hne
    show g ∈ (t.tag.delall ((f.frameType).str)).add (Frame.text f.frameType v)
    exact mem_add_of_mem (mem_delall_of_safe hm hk hp) hk
  · intro hm
    rcases mem_add_elim hm with hg | hg
    · right
      rw [hg]
      rfl
    · left
      exact (mem_delall_imp hg).1

/-- C10 witness: a COMM frame survives `set_title` on a concrete tag. -/
theorem C10_witness :
    Frame.comm "eng" "d" "x"
      ∈ ((MP3Tagger.mk "p" [Frame.comm "eng" "d" "x"]).set_field .title "T").tag :=
  (C10_setters_touch_only_own_frame_type (MP3Tagger.mk "p" [Frame.comm "eng" "d" "x"])
    .title "T" (Frame.comm "eng" "d" "x")).1 (by decide) (by decide)

/-- C4: opening a Tag Store on an audio file with no existing tag yields a
tag holding exactly one TLEN duration frame whose value is the decoded
playtime in milliseconds rounded to the nearest integer, and no other
frame; the same duration stamp is applied unconditionally on the
load-existing path as well. -/
theorem C4_duration_stamped_on_open (path : String) (len : ℚ) :
    (MP3Tagger.init path (PathState.audio none len)
      = Except.ok { path := path, tag := [Frame.tlen (pythonRound (len * 1000))] })
    ∧ (∀ tg : ID3Tag, ∃ t : MP3Tagger,
        MP3Tagger.init path (PathState.audio (some tg) len) = Except.ok t
          ∧ t.path = path ∧ Frame.tlen (pythonRound (len * 1000)) ∈ t.tag) := by
  constructor
  · rfl
  · intro tg
    exact ⟨{ path := path, tag := tg.add (Frame.tlen (pythonRound (len * 1000))) },
      rfl, rfl, add_mem_self tg _⟩

/-- C7: opening propagates an error exactly when the path is missing or
the file is not a readable MPEG audio container; an existing audio file
without a tag (or with one) always yields a usable tagger object. -/
theorem C7_open_fails_iff_missing_or_not_audio (path : String) (st : PathState) :
    ((∃ e, MP3Tagger.init path st = Except.error e)
        ↔ (st = PathState.missing ∨ ∃ o, st = PathState.notAudio o))
    ∧ (∀ (tg : Option ID3Tag) (len : ℚ), st = PathState.audio tg len →
        ∃ t, MP3Tagger.init path st = Except.ok t) := by
  constructor
  · constructor
    · rintro ⟨e, he⟩
      cases st with
      | missing => exact Or.inl rfl
      | notAudio o => exact Or.inr ⟨o, rfl⟩
      | audio tg len =>
          exfalso
          cases tg with
          | none => exact Except.noConfusion he
          | some tg0 => exact Except.noConfusion he
    · rintro (h | ⟨o, h⟩)
      · subst h
        exact ⟨MutagenError.unreadable, rfl⟩
      · subst h
        cases o with
        | none => exact ⟨MutagenError.headerNotFound, rfl⟩
        | some tg0 => exact ⟨MutagenError.headerNotFound, rfl⟩
  · intro tg len h
    subst h
    cases tg with
    | none => exact ⟨_, rfl⟩
    | some tg0 => exact ⟨_, rfl⟩

/-- C5: `as_chap` carries the chapter's element id, start and end, and its
sub-record list is exactly: the title sub-record when `text` is present,
then the `"chapter url"` URL sub-record when `url` is present — title
strictly before URL, and nothing else. -/
theorem C5_as_chap_subframe_order (c : Chapter) (h : c.image = none) :
    ∃ f : CHAPFrame, c.as_chap = Except.ok f
      ∧ f.element_id = c.elem_id ∧ f.start_time = c.start ∧ f.end_time = c.end_
      ∧ (c.text = none → c.url = none → f.sub_frames = [])
      ∧ (∀ s, c.text = some s → c.url = none → f.sub_frames = [SubFrame.tit2 s])
      ∧ (∀ u, c.text = none → c.url = some u →
          f.sub_frames = [SubFrame.wxxx "chapter url" u])
      ∧ (∀ s u, c.text = some s → c.url = some u →
          f.sub_frames = [SubFrame.tit2 s, SubFrame.wxxx "chapter url" u]) := by
  refine ⟨chapOk c, as_chap_ok c h, rfl, rfl, rfl, ?_, ?_, ?_, ?_⟩
  · intro ht hu
    simp [chapOk, ht, hu]
  · intro s ht hu
    simp [chapOk, ht, hu]
  · intro u ht hu
    simp [chapOk, ht, hu]
  · intro s u ht hu
    simp [chapOk, ht, hu]

/-- C5 witness: a concrete chapter with both a title and a URL renders
with the title sub-record strictly before the URL sub-record. -/
theorem C5_witness :
    ({ text := some "Intro", start := 0, end_ := 1000,
        url := some "http://x" } : Chapter).as_chap
      = Except.ok
        { element_id := none, start_time := 0, end_time := 1000,
          sub_frames := [SubFrame.tit2 "Intro", SubFrame.wxxx "chapter url" "http://x"] } := by
  obtain ⟨f, hok, h1, h2, h3, h4, h5, h6, h7⟩ :=
    C5_as_chap_subframe_order
      ({ text := some "Intro", start := 0, end_ := 1000, url := some "http://x" } : Chapter) rfl
  rw [hok]
  have hs := h7 "Intro" "http://x" rfl rfl
  cases f
  simp_all

/-- C6: a chapter with an image set makes `as_chap` fail with the
`NotImplementedError`, producing no chapter-frame record. -/
theorem C6_image_not_implemented (c : Chapter) (img : String) (h : c.image = some img) :
    c.as_chap = Except.error ChapError.notImplementedError := by
  unfold Chapter.as_chap
  rw [h]

/-- C6 witness at a concrete chapter carrying an image. -/
theorem C6_witness :
    ({ start := 0, end_ := 5, image := some "cover.png" } : Chapter).as_chap
      = Except.error ChapError.notImplementedError :=
  C6_image_not_implemented _ "cover.png" rfl

/-- C2: chapter-set emission for a non-empty chapter list (with no images,
the only renderable case) emits exactly one table-of-contents frame whose
child list is the element ids of the indexed chapters in chapter order,
and one chapter frame per chapter; an empty list emits nothing. -/
theorem C2_chapter_emission (chapters : List Chapter)
    (himg : ∀ c ∈ chapters, c.image = none) :
    (chapters = [] → render_chapters chapters = Except.ok [])
    ∧ (chapters ≠ [] → ∃ frames : List Frame,
        render_chapters chapters = Except.ok frames
        ∧ (frames.filter Frame.isCtoc).length = 1
        ∧ (∀ eid children, Frame.ctoc eid children ∈ frames →
            children = (chapters.enum.filter (fun p => p.2.indexed)).map
              (fun p => "chp" ++ Nat.repr p.1))
        ∧ (frames.filter Frame.isChap).length = chapters.length) := by
  constructor
  · intro h
    subst h
    rfl
  · intro hne
    refine ⟨_, render_chapters_ok chapters hne himg, ?_, ?_, ?_⟩
    · rw [List.filter_append]
      have h1 : ((assign_element_ids chapters).map
          (fun c => Frame.chap (chapOk c))).filter Frame.isCtoc = [] := by
        apply List.filter_eq_nil_iff.mpr
        intro b hb
        rcases List.mem_map.mp hb with ⟨a, -, rfl⟩
        simp [Frame.isCtoc]
      rw [h1]
      rfl
    · intro eid children hmem
      rcases List.mem_append.mp hmem with hm | hm
      · rcases List.mem_map.mp hm with ⟨a, -, hctoc⟩
        exact absurd hctoc (by simp)
      · have he : Frame.ctoc eid children
            = Frame.ctoc "toc" ((chapters.enum.filter (fun p => p.2.indexed)).map
                (fun p => "chp" ++ Nat.repr p.1)) := by
          simpa using hm
        exact (Frame.ctoc.injEq _ _ _ _).mp he |>.2
    · rw [List.filter_append]
      have h1 : ((assign_element_ids chapters).map
          (fun c => Frame.chap (chapOk c))).filter Frame.isChap
          = (assign_element_ids chapters).map (fun c => Frame.chap (chapOk c)) := by
        apply List.filter_eq_self.mpr
        intro b hb
        rcases List.mem_map.mp hb with ⟨a, -, rfl⟩
        simp [Frame.isChap]
      rw [h1]
      simp [assign_length, Frame.isChap]

/-- C8: during emission every chapter is assigned, in traversal order, the
element id `"chp<i>"` for its position `i`, and these ids are pairwise
distinct. -/
theorem C8_element_ids_sequential_and_distinct (chapters : List Chapter) :
    ((assign_element_ids chapters).map (fun c => c.elem_id)
        = (List.range chapters.length).map (fun i => some ("chp" ++ Nat.repr i)))
    ∧ ((assign_element_ids chapters).map (fun c => c.elem_id)).Nodup := by
  have h1 : (assign_element_ids chapters).map (fun c => c.elem_id)
      = (List.range chapters.length).map (fun i => some ("chp" ++ Nat.repr i)) := by
    unfold assign_element_ids
    rw [List.map_map, ← List.enum_map_fst chapters, List.map_map]
    rfl
  refine ⟨h1, ?_⟩
  rw [h1]
  have hinj : Function.Injective (fun i : ℕ => some ("chp" ++ Nat.repr i)) := by
    intro i j hij
    exact nat_repr_inj (string_append_left_cancel "chp" (Option.some.inj hij))
  exact (List.nodup_range chapters.length).map hinj

/-- C2 witness: the empty list emits nothing, and the spec's three-chapter
example (A indexed, B not indexed, C indexed) emits one table of contents
listing exactly A and C, plus three chapter frames. -/
theorem C2_witness :
    (render_chapters [] = Except.ok [])
    ∧ (∃ frames : List Frame,
        render_chapters
          [ { text := some "A", start := 0, end_ := 10, indexed := true },
            { text := some "B", start := 10, end_ := 20, indexed := false },
            { text := some "C", start := 20, end_ := 30, indexed := true } ]
          = Except.ok frames
        ∧ (frames.filter Frame.isCtoc).length = 1
        ∧ (∀ eid children, Frame.ctoc eid children ∈ frames →
            children = (([ { text := some "A", start := 0, end_ := 10, indexed := true },
                { text := some "B", start := 10, end_ := 20, indexed := false },
                { text := some "C", start := 20, end_ := 30, indexed := true } ]
                : List Chapter).enum.filter (fun p => p.2.indexed)).map
              (fun p => "chp" ++ Nat.repr p.1))
        ∧ (frames.filter Frame.isChap).length
            = ([ { text := some "A", start := 0, end_ := 10, indexed := true },
                { text := some "B", start := 10, end_ := 20, indexed := false },
                { text := some "C", start := 20, end_ := 30, indexed := true } ]
                : List Chapter).length) :=
  ⟨(C2_chapter_emission [] (by decide)).1 rfl,
   (C2_chapter_emission
      [ { text := some "A", start := 0, end_ := 10, indexed := true },
        { text := some "B", start := 10, end_ := 20, indexed := false },
        { text := some "C", start := 20, end_ := 30, indexed := true } ]
      (by decide)).2 (by decide)⟩

/-- C7 witness: opening a missing path fails; opening an existing,
tagless audio file succeeds. -/
theorem C7_witness :
    (∃ e, MP3Tagger.init "x.mp3" PathState.missing = Except.error e)
    ∧ (∃ t, MP3Tagger.init "x.mp3" (PathState.audio none 2) = Except.ok t) :=
  ⟨(C7_open_fails_iff_missing_or_not_audio "x.mp3" PathState.missing).1.mpr (Or.inl rfl),
   (C7_open_fails_iff_missing_or_not_audio "x.mp3" (PathState.audio none 2)).2 none 2 rfl⟩
